import Mathlib

/-!
Shallow embedding of the evidence-collection and attribution engine of
`ai_ecosystem_mapper.py` (class `AIEcosystemMapper`).

Python strings are modelled as `List Char`; Python dicts that are built by
insertion (and whose insertion order is observable via `.items()` /
`list(d.keys())`) are modelled as association lists that append new keys at
the end.  Fallible code (uncaught exceptions, divisions that may raise
`ZeroDivisionError`) is modelled with `Except Unit`.  Network fetches are
out of scope (spec §6): the per-source scanners take the fetch result as an
`Except Unit` input, `Except.error` standing for a failed request or a
raised exception during the request.
-/

namespace AIEco

/-- Python strings, modelled as lists of characters. -/
abbrev Str := List Char

/-- Coerce a Lean string literal to the model type. -/
def str (s : String) : Str := s.data

/-- ASCII lowercasing of a single character, as Python `str.lower` acts on
the ASCII range (all catalog phrases and account names are ASCII). -/
def lowerChar (c : Char) : Char :=
  if 'A' ≤ c ∧ c ≤ 'Z' then Char.ofNat (c.toNat + 32) else c

/-- Python `text.lower()` on ASCII text. -/
def toLowerL (t : Str) : Str := t.map lowerChar

/-- Python `text.find(pattern)`: index of the first (leftmost) occurrence of
`p` as a contiguous substring of `t`, `none` for Python's `-1`. -/
def findSub (t p : Str) : Option Nat :=
  match t with
  | [] => if p.isPrefixOf ([] : Str) then some 0 else none
  | c :: t' =>
    if p.isPrefixOf (c :: t') then some 0
    else (findSub t' p).map (· + 1)

/-- Python `p in t` for strings (substring containment). -/
def pyContains (t p : Str) : Bool := (findSub t p).isSome

/-- The characters removed by Python `str.strip()` (ASCII whitespace). -/
def isSpaceChar (c : Char) : Bool :=
  c == ' ' || c == '\t' || c == '\n' || c == '\r' ||
    c == Char.ofNat 11 || c == Char.ofNat 12

/-- Python `str.strip()`: drop leading and trailing whitespace. -/
def trim (t : Str) : Str :=
  ((t.dropWhile isSpaceChar).reverse.dropWhile isSpaceChar).reverse

/-- `AIEcosystemMapper._extract_context(text, pattern, context_length=80)`:
snippet around the first occurrence of `pattern` in `text` (Python slice
`text[max(0, pos - cl//2) : min(len(text), pos + len(pattern) + cl//2)]`,
stripped), falling back to the first `context_length` characters when the
pattern is absent.  The Python body cannot raise on string inputs, so the
defensive `except` branch is dead code here. -/
def extractContext (text pat : Str) (contextLength : Nat) : Str :=
  match findSub text pat with
  | none => trim (text.take contextLength)
  | some pos =>
    let start := pos - contextLength / 2
    let stop := min text.length (pos + pat.length + contextLength / 2)
    trim ((text.take stop).drop start)

/-- Source-specific metadata carried by one evidence dict (the keys other
than `location`, `pattern`, `context` in the Python dicts). -/
inductive SourceMeta where
  | desc : SourceMeta
  | comment (author date : Str) : SourceMeta
  | review (author file : Str) : SourceMeta
  | commit (sha author : Str) : SourceMeta
deriving DecidableEq

/-- One evidence dict appended to `ai_tools_found[tool_name]` /
`ai_evidence[tool_name]`. -/
structure Evidence where
  location : Str
  pattern : Str
  context : Str
  meta : SourceMeta
deriving DecidableEq

/-- The Python dicts `tool_name -> [evidence_list]`, with insertion order
(new keys appended at the end, as Python dicts preserve first-insertion
order). -/
abbrev EvidenceMap := List (Str × List Evidence)

/-- Python `m[tool]` with default `[]` (`m` never maps a key to a non-list). -/
def lookupD (m : EvidenceMap) (tool : Str) : List Evidence :=
  match m with
  | [] => []
  | (t, es) :: rest => if t = tool then es else lookupD rest tool

/-- `if tool not in m: m[tool] = []` followed by `m[tool].append(e)`. -/
def addEvidence (m : EvidenceMap) (tool : Str) (e : Evidence) : EvidenceMap :=
  match m with
  | [] => [(tool, [e])]
  | (t, es) :: rest =>
    if t = tool then (t, es ++ [e]) :: rest
    else (t, es) :: addEvidence rest tool e

/-- `if tool not in m: m[tool] = []` followed by `m[tool].extend(es)`. -/
def extendEvidence (m : EvidenceMap) (tool : Str) (es : List Evidence) : EvidenceMap :=
  match m with
  | [] => [(tool, es)]
  | (t, es0) :: rest =>
    if t = tool then (t, es0 ++ es) :: rest
    else (t, es0) :: extendEvidence rest tool es

/-- `self.ai_tool_patterns`: tool name → list of lowercase phrases, in the
source's literal order. -/
def aiToolPatterns : List (Str × List Str) :=
  [ (str "chatgpt",
      [str "chatgpt", str "chat-gpt", str "gpt-4", str "gpt-3.5", str "gpt-3",
       str "openai gpt", str "generated with chatgpt", str "chatgpt helped",
       str "used chatgpt", str "chatgpt suggested", str "ask chatgpt",
       str "chatgpt says", str "according to chatgpt"]),
    (str "github_copilot",
      [str "github copilot", str "copilot", str "gh copilot",
       str "copilot suggested", str "copilot generated", str "with copilot",
       str "copilot helped", str "copilot says", str "copilot completion",
       str "copilot auto", str "thanks copilot"]),
    (str "claude",
      [str "claude", str "anthropic claude", str "claude ai", str "claude helped",
       str "claude says", str "generated with claude", str "claude suggested",
       str "asked claude", str "claude thinks", str "claude code", str "claude-code"]),
    (str "codex",
      [str "codex", str "openai codex", str "codex generated", str "with codex",
       str "codex says", str "codex completion", str "codex helped"]),
    (str "cursor",
      [str "cursor ai", str "cursor", str "cursor suggested", str "cursor helped",
       str "with cursor", str "cursor completion", str "cursor says"]),
    (str "devin",
      [str "devin", str "devin ai", str "devin-ai", str "devin generated",
       str "devin says", str "devin helped", str "devin suggested"]),
    (str "codewhisperer",
      [str "codewhisperer", str "code whisperer", str "amazon codewhisperer",
       str "aws codewhisperer"]),
    (str "tabnine",
      [str "tabnine", str "tab nine", str "tabnine completion", str "tabnine suggested"]),
    (str "cody",
      [str "cody ai", str "sourcegraph cody", str "cody", str "cody helped",
       str "cody suggested"]),
    (str "general_ai",
      [str "ai assisted", str "ai generated", str "ai helped", str "ai suggestion",
       str "ai tool", str "artificial intelligence", str "machine learning",
       str "neural network", str "large language model", str "llm", str "ai model",
       str "ai review", str "ai analysis"]) ]

/-- The body of the innermost loop of the four scanning sites:
`if pattern in text: ...append({location, pattern, context, meta})`. -/
def scanStep (text loc : Str) (meta : SourceMeta) (tool : Str)
    (m : EvidenceMap) (p : Str) : EvidenceMap :=
  if pyContains text p then
    addEvidence m tool
      { location := loc, pattern := p, context := extractContext text p 80,
        meta := meta }
  else m

/-- `for pattern in patterns: ...` for one tool. -/
def scanTool (text loc : Str) (meta : SourceMeta) (m : EvidenceMap)
    (tp : Str × List Str) : EvidenceMap :=
  tp.2.foldl (scanStep text loc meta tp.1) m

/-- `for tool_name, patterns in self.ai_tool_patterns.items(): ...` over an
arbitrary catalog (instantiated with `aiToolPatterns`). -/
def scanCatalog (cat : List (Str × List Str)) (text loc : Str)
    (meta : SourceMeta) (m0 : EvidenceMap) : EvidenceMap :=
  cat.foldl (scanTool text loc meta) m0

/-- Scan one text blob against the full catalog, accumulating into `m0`. -/
def scanBlob (text loc : Str) (meta : SourceMeta) (m0 : EvidenceMap) : EvidenceMap :=
  scanCatalog aiToolPatterns text loc meta m0

/-- One issue comment as handed back by the forge API; `body` is `none`
when the JSON field is `null` (Python `comment.get('body', '')` then yields
`None`, and `None.lower()` raises inside the `try`). The `user.login` and
`created_at` fields are taken as present. -/
structure Comment where
  body : Option Str
  author : Str
  date : Str

/-- The comment loop of `_scan_pr_comments`: a `None` body raises
`AttributeError`, which the surrounding `except` catches, returning the
evidence accumulated so far. -/
def scanCommentsList : List Comment → EvidenceMap → EvidenceMap
  | [], acc => acc
  | c :: rest, acc =>
    match c.body with
    | none => acc
    | some b =>
      scanCommentsList rest
        (scanBlob (toLowerL b) (str "PR comment")
          (SourceMeta.comment c.author c.date) acc)

/-- `AIEcosystemMapper._scan_pr_comments`: a failed fetch (`Except.error`)
is caught by the `except`, yielding the empty map. -/
def scanPrComments (fetched : Except Unit (List Comment)) : EvidenceMap :=
  match fetched with
  | Except.error _ => []
  | Except.ok cs => scanCommentsList cs []

/-- One review comment; `path` is `none` when absent (Python
`comment.get('path', 'Unknown')`). -/
structure ReviewComment where
  body : Option Str
  author : Str
  path : Option Str

/-- The review-comment loop of `_scan_review_comments`. -/
def scanReviewList : List ReviewComment → EvidenceMap → EvidenceMap
  | [], acc => acc
  | c :: rest, acc =>
    match c.body with
    | none => acc
    | some b =>
      scanReviewList rest
        (scanBlob (toLowerL b) (str "Code review comment")
          (SourceMeta.review c.author (c.path.getD (str "Unknown"))) acc)

/-- `AIEcosystemMapper._scan_review_comments`. -/
def scanReviewComments (fetched : Except Unit (List ReviewComment)) : EvidenceMap :=
  match fetched with
  | Except.error _ => []
  | Except.ok cs => scanReviewList cs []

/-- One commit of the PR (`commit.commit.message`, `sha`,
`commit.commit.author.name`). -/
structure CommitData where
  sha : Str
  message : Str
  authorName : Str

/-- The commit loop of `_scan_commit_messages` (`commit_sha = sha[:8]`). -/
def scanCommitsList : List CommitData → EvidenceMap → EvidenceMap
  | [], acc => acc
  | c :: rest, acc =>
    scanCommitsList rest
      (scanBlob (toLowerL c.message) (str "Commit message")
        (SourceMeta.commit (c.sha.take 8) c.authorName) acc)

/-- `AIEcosystemMapper._scan_commit_messages`. -/
def scanCommitMessages (fetched : Except Unit (List CommitData)) : EvidenceMap :=
  match fetched with
  | Except.error _ => []
  | Except.ok cs => scanCommitsList cs []

/-- The fields of the `pr_info` dicts built by `get_ai_pr_watcher_prs` that
the core reads.  `body` is `none` when the forge returned JSON `null`
(`pr.get('body', '')` keeps the `None` in that case). -/
structure PRData where
  title : Str
  body : Option Str
  author : Str
  detection_query : Str

/-- The description part of `scan_pr_for_ai_tools`:
`pr_text = (title + ' ' + body).lower()` scanned into a fresh dict. -/
def descScan (title body : Str) : EvidenceMap :=
  scanBlob (toLowerL (title ++ str " " ++ body)) (str "PR description")
    SourceMeta.desc []

/-- One `for tool_name, evidence_list in src.items(): ...extend(...)` merge
step of `scan_pr_for_ai_tools`. -/
def mergeSource (m src : EvidenceMap) : EvidenceMap :=
  src.foldl (fun acc te => extendEvidence acc te.1 te.2) m

/-- `AIEcosystemMapper.scan_pr_for_ai_tools`.  With a `None` body the very
first statement `pr_data['title'] + ' ' + pr_data.get('body', '')` raises
`TypeError`; there is no `try` around it, so the exception escapes
(`Except.error`). -/
def scan_pr_for_ai_tools (pr : PRData)
    (comments : Except Unit (List Comment))
    (reviews : Except Unit (List ReviewComment))
    (commits : Except Unit (List CommitData)) : Except Unit EvidenceMap :=
  match pr.body with
  | none => Except.error ()
  | some b =>
    let m1 := descScan pr.title b
    let m2 := mergeSource m1 (scanPrComments comments)
    let m3 := mergeSource m2 (scanReviewComments reviews)
    let m4 := mergeSource m3 (scanCommitMessages commits)
    Except.ok m4

/-- `self.creator_patterns` entry. -/
structure CreatorRule where
  bot_accounts : List Str
  branch_patterns : List Str
  commit_patterns : List Str
deriving DecidableEq

/-- `self.creator_patterns`, in the source's literal order. -/
def creator_patterns : List (Str × CreatorRule) :=
  [ (str "devin",
      { bot_accounts := [str "devin-ai-integration[bot]", str "devin-ai[bot]"],
        branch_patterns := [str "devin/", str "devin-"],
        commit_patterns := [str "devin:", str "by devin"] }),
    (str "codegen",
      { bot_accounts := [str "codegen-sh[bot]", str "codegen[bot]"],
        branch_patterns := [str "codegen/", str "codegen-"],
        commit_patterns := [str "codegen:", str "by codegen"] }),
    (str "github_copilot",
      { bot_accounts := [str "github-copilot[bot]"],
        branch_patterns := [str "copilot/", str "copilot-"],
        commit_patterns := [str "copilot:", str "by copilot"] }),
    (str "codex",
      { bot_accounts := [str "openai-codex[bot]"],
        branch_patterns := [str "codex/", str "codex-"],
        commit_patterns := [str "codex:", str "by codex"] }),
    (str "cursor",
      { bot_accounts := [str "cursor[bot]", str "cursor-ai[bot]"],
        branch_patterns := [str "cursor/", str "cursor-"],
        commit_patterns := [str "cursor:", str "by cursor"] }) ]

/-- The dict returned by `identify_primary_creator`. -/
structure CreatorVerdict where
  primary_creator : Str
  confidence : Str
  evidence : Str
deriving DecidableEq

/-- The bot-account loop of `identify_primary_creator`:
`for tool_name, patterns in self.creator_patterns.items(): if author in
[bot.lower() for bot in patterns['bot_accounts']]: return ...`. -/
def findBotTool (author : Str) : List (Str × CreatorRule) → Option Str
  | [] => none
  | (tool, rule) :: rest =>
    if author ∈ rule.bot_accounts.map toLowerL then some tool
    else findBotTool author rest

/-- `AIEcosystemMapper.identify_primary_creator`. -/
def identify_primary_creator (pr : PRData) : CreatorVerdict :=
  match findBotTool (toLowerL pr.author) creator_patterns with
  | some tool =>
    { primary_creator := tool, confidence := str "high",
      evidence := str "Bot account: " ++ pr.author }
  | none =>
    if pyContains pr.detection_query (str "head:copilot/") then
      { primary_creator := str "github_copilot", confidence := str "medium",
        evidence := str "Branch pattern: copilot/" }
    else if pyContains pr.detection_query (str "head:codex/") then
      { primary_creator := str "codex", confidence := str "medium",
        evidence := str "Branch pattern: codex/" }
    else if pyContains pr.detection_query (str "head:cursor/") then
      { primary_creator := str "cursor", confidence := str "low",
        evidence := str "Branch pattern: cursor/ (cursor is primarily an IDE)" }
    else
      { primary_creator := str "unknown", confidence := str "low",
        evidence := str "Author: " ++ pr.author ++ str ", Query: "
          ++ pr.detection_query }

/-- The parts of the analysis dict built by `analyze_pr_ai_ecosystem` that
the reporter reads (the `pr_info` sub-dict is presentation only). -/
structure AnalysisRec where
  primary_creator : CreatorVerdict
  ai_tool_names : List Str
  ai_tool_count : Nat
  is_multi_ai : Bool
deriving DecidableEq

/-- `AIEcosystemMapper.analyze_pr_ai_ecosystem`, propagating the scanning
exception of `scan_pr_for_ai_tools` (Python has no handler here). -/
def analyze_pr_ai_ecosystem (pr : PRData)
    (comments : Except Unit (List Comment))
    (reviews : Except Unit (List ReviewComment))
    (commits : Except Unit (List CommitData)) : Except Unit AnalysisRec :=
  match scan_pr_for_ai_tools pr comments reviews commits with
  | Except.error e => Except.error e
  | Except.ok m =>
    Except.ok
      { primary_creator := identify_primary_creator pr
        ai_tool_names := m.map (fun te => te.1)
        ai_tool_count := m.length
        is_multi_ai := decide (m.length > 1) }

/-- Lexicographic comparison of Python strings by code point
(Python `<` on `str`, as used by `sorted`). -/
def strLe : Str → Str → Bool
  | [], _ => true
  | _ :: _, [] => false
  | a :: as, b :: bs => if a = b then strLe as bs else decide (a < b)

/-- Python `sorted(list_of_strings)`.  Insertion sort is extensionally the
same function: both return the unique `strLe`-sorted permutation (ties are
equal strings, so stability is unobservable). -/
def sortStrs (l : List Str) : List Str :=
  List.insertionSort (fun a b => strLe a b = true) l

/-- Python `d[k] = d.get(k, 0) + 1` on an insertion-ordered dict. -/
def bumpCount {α : Type} [DecidableEq α] (m : List (α × Nat)) (k : α) :
    List (α × Nat) :=
  match m with
  | [] => [(k, 1)]
  | (t, n) :: rest =>
    if t = k then (t, n + 1) :: rest else (t, n) :: bumpCount rest k

/-- Python `max(items, key=lambda x: x[1])` starting from `best`: a later
item replaces the current best only when strictly greater, so the first of
tied maxima wins. -/
def maxBySnd {α : Type} (best : α × Nat) : List (α × Nat) → α × Nat
  | [] => best
  | x :: rest => maxBySnd (if best.2 < x.2 then x else best) rest

/-- The `combinations` dict of `_generate_ecosystem_report`:
`tuple(sorted(result['ai_tool_names']))` counted over multi-AI analyses. -/
def combinationsOf (results : List AnalysisRec) : List (List Str × Nat) :=
  results.foldl
    (fun m r => if r.is_multi_ai then bumpCount m (sortStrs r.ai_tool_names) else m)
    []

/-- `max(combinations.items(), key=lambda x: x[1])`, guarded by
`if combinations:`. -/
def top_combination (results : List AnalysisRec) : Option (List Str × Nat) :=
  match combinationsOf results with
  | [] => none
  | x :: rest => some (maxBySnd x rest)

/-- The `creators` frequency dict of the report. -/
def creatorFrequency (results : List AnalysisRec) : List (Str × Nat) :=
  results.foldl (fun m r => bumpCount m r.primary_creator.primary_creator) []

/-- The `tool_frequency` dict of the report (one count per PR per tool). -/
def toolFrequency (results : List AnalysisRec) : List (Str × Nat) :=
  results.foldl (fun m r => r.ai_tool_names.foldl (fun m' t => bumpCount m' t) m) []

/-- The `creator_multi_ai` dict of the report. -/
def creatorMultiAi (results : List AnalysisRec) : List (Str × Nat) :=
  results.foldl
    (fun m r =>
      if r.is_multi_ai then bumpCount m r.primary_creator.primary_creator else m)
    []

/-- The values computed by `_generate_ecosystem_report` (the console
percentage formatting and truncation are presentation; the sort used for
printing the frequency tables does not change the dicts themselves). -/
structure EcosystemReport where
  total_prs : Nat
  multi_ai_count : Nat
  multi_ai_pct : Rat
  creators : List (Str × Nat)
  tool_frequency : List (Str × Nat)
  creator_multi_ai : List (Str × Nat)
  top_multi_creator : Option (Str × Nat)
  combinations : List (List Str × Nat)
  top_combo : Option (List Str × Nat)
  average_tools : Rat

/-- `AIEcosystemMapper._generate_ecosystem_report`.  Every division in the
function divides by `total_prs = len(results)`; with an empty input the
first of them (`multi_ai_prs/total_prs*100`) raises `ZeroDivisionError`,
modelled as `Except.error`. -/
def generate_ecosystem_report (results : List AnalysisRec) :
    Except Unit EcosystemReport :=
  let total := results.length
  let multi := (results.filter (fun r => r.is_multi_ai)).length
  if total = 0 then Except.error ()
  else
    Except.ok
      { total_prs := total
        multi_ai_count := multi
        multi_ai_pct := (multi : Rat) / (total : Rat) * 100
        creators := creatorFrequency results
        tool_frequency := toolFrequency results
        creator_multi_ai := creatorMultiAi results
        top_multi_creator :=
          match creatorMultiAi results with
          | [] => none
          | x :: rest => some (maxBySnd x rest)
        combinations := combinationsOf results
        top_combo := top_combination results
        average_tools :=
          ((results.foldl (fun s r => s + r.ai_tool_count) 0 : Nat) : Rat)
            / (total : Rat) }

/-- `AIEcosystemMapper.run_ecosystem_mapping`: when the collected PR list is
empty the function prints a message and returns early (Python `return`,
i.e. `None`) without ever invoking the reporter; otherwise it analyzes each
PR (any uncaught per-PR exception aborts the run) and generates the report.
-/
def run_ecosystem_mapping
    (prs : List (PRData × Except Unit (List Comment)
      × Except Unit (List ReviewComment) × Except Unit (List CommitData))) :
    Except Unit (Option (EcosystemReport × List AnalysisRec)) :=
  if prs.isEmpty then Except.ok none
  else
    match prs.mapM (fun x => analyze_pr_ai_ecosystem x.1 x.2.1 x.2.2.1 x.2.2.2) with
    | Except.error e => Except.error e
    | Except.ok results =>
      match generate_ecosystem_report results with
      | Except.error e => Except.error e
      | Except.ok rep => Except.ok (some (rep, results))

/-! ### Lemmas about `findSub`, `pyContains`, `trim` and `extractContext` -/

theorem findSub_isSome_iff (t p : Str) : (findSub t p).isSome = true ↔ p <:+: t := by
  induction t with
  | nil =>
    simp only [findSub]
    split
    · rename_i h
      simp only [Option.isSome_some, true_iff]
      exact (List.isPrefixOf_iff_prefix.mp h).isInfix
    · rename_i h
      simp only [Option.isSome_none, Bool.false_eq_true, false_iff]
      intro hc
      exact h (List.isPrefixOf_iff_prefix.mpr (List.eq_nil_of_infix_nil hc ▸ List.prefix_refl _))
  | cons c t' ih =>
    simp only [findSub]
    split
    · rename_i h
      simp only [Option.isSome_some, true_iff]
      exact (List.isPrefixOf_iff_prefix.mp h).isInfix
    · rename_i h
      have hm : (Option.map (fun x => x + 1) (findSub t' p)).isSome = (findSub t' p).isSome := by
        cases findSub t' p <;> rfl
      rw [hm, ih, List.infix_cons_iff]
      constructor
      · exact Or.inr
      · rintro (hp | hi)
        · exact absurd (List.isPrefixOf_iff_prefix.mpr hp) h
        · exact hi

theorem pyContains_iff (t p : Str) : pyContains t p = true ↔ p <:+: t := by
  rw [pyContains, findSub_isSome_iff]

/-- `findSub` returns the first (least) occurrence. -/
theorem findSub_first (t p : Str) :
    ∀ i, findSub t p = some i →
      p.isPrefixOf (t.drop i) = true ∧ ∀ j, j < i → p.isPrefixOf (t.drop j) = false := by
  induction t with
  | nil =>
    intro i h
    simp only [findSub] at h
    split at h
    · rename_i hp
      cases h
      exact ⟨hp, fun j hj => absurd hj (Nat.not_lt_zero j)⟩
    · cases h
  | cons c t' ih =>
    intro i h
    simp only [findSub] at h
    split at h
    · rename_i hp
      cases h
      exact ⟨hp, fun j hj => absurd hj (Nat.not_lt_zero j)⟩
    · rename_i hp
      rw [Option.map_eq_some'] at h
      obtain ⟨i', hi', rfl⟩ := h
      obtain ⟨h1, h2⟩ := ih i' hi'
      refine ⟨h1, ?_⟩
      intro j hj
      cases j with
      | zero => simpa using Bool.not_eq_true _ ▸ (by simpa using hp)
      | succ k => exact h2 k (Nat.lt_of_succ_lt_succ hj)

theorem trim_length_le (t : Str) : (trim t).length ≤ t.length := by
  unfold trim
  calc (((t.dropWhile isSpaceChar).reverse.dropWhile isSpaceChar).reverse).length
      = ((t.dropWhile isSpaceChar).reverse.dropWhile isSpaceChar).length := by
        rw [List.length_reverse]
    _ ≤ (t.dropWhile isSpaceChar).reverse.length :=
        (List.dropWhile_sublist isSpaceChar).length_le
    _ = (t.dropWhile isSpaceChar).length := by rw [List.length_reverse]
    _ ≤ t.length := (List.dropWhile_sublist isSpaceChar).length_le

/-! ### Lemmas about `EvidenceMap` operations -/

/-- The key list of an evidence map (`list(d.keys())`). -/
def keys (m : EvidenceMap) : List Str := m.map (fun te => te.1)

theorem lookupD_addEvidence (m : EvidenceMap) (t : Str) (e : Evidence) (u : Str) :
    lookupD (addEvidence m t e) u =
      if t = u then lookupD m u ++ [e] else lookupD m u := by
  induction m with
  | nil =>
    simp only [addEvidence, lookupD]
    split <;> simp_all [lookupD]
  | cons te rest ih =>
    obtain ⟨t0, es⟩ := te
    simp only [addEvidence]
    by_cases h0 : t0 = t
    · subst h0
      simp only [if_pos rfl, lookupD]
      by_cases hu : t0 = u
      · subst hu; simp
      · simp [hu]
    · simp only [if_neg h0, lookupD]
      by_cases hu : t0 = u
      · subst hu
        rw [if_pos rfl, if_pos rfl, if_neg (fun h : t = t0 => h0 h.symm)]
      · rw [if_neg hu, if_neg hu, ih]

theorem lookupD_extendEvidence (m : EvidenceMap) (t : Str) (es : List Evidence)
    (u : Str) :
    lookupD (extendEvidence m t es) u =
      if t = u then lookupD m u ++ es else lookupD m u := by
  induction m with
  | nil =>
    simp only [extendEvidence, lookupD]
    split <;> simp_all [lookupD]
  | cons te rest ih =>
    obtain ⟨t0, es0⟩ := te
    simp only [extendEvidence]
    by_cases h0 : t0 = t
    · subst h0
      simp only [if_pos rfl, lookupD]
      by_cases hu : t0 = u
      · subst hu; simp
      · simp [hu]
    · simp only [if_neg h0, lookupD]
      by_cases hu : t0 = u
      · subst hu
        rw [if_pos rfl, if_pos rfl, if_neg (fun h : t = t0 => h0 h.symm)]
      · rw [if_neg hu, if_neg hu, ih]

theorem lookupD_eq_nil_of_not_mem_keys (m : EvidenceMap) (u : Str)
    (h : u ∉ keys m) : lookupD m u = [] := by
  induction m with
  | nil => rfl
  | cons te rest ih =>
    simp only [keys, List.map_cons, List.mem_cons, not_or] at h
    simp only [lookupD]
    rw [if_neg (fun he => h.1 he.symm)]
    exact ih (by simpa [keys] using h.2)

theorem keys_addEvidence (m : EvidenceMap) (t : Str) (e : Evidence) :
    keys (addEvidence m t e) = if t ∈ keys m then keys m else keys m ++ [t] := by
  induction m with
  | nil => simp [addEvidence, keys]
  | cons te rest ih =>
    obtain ⟨t0, es⟩ := te
    simp only [addEvidence]
    by_cases h0 : t0 = t
    · subst h0; simp [keys]
    · rw [if_neg h0]
      have hk : keys ((t0, es) :: addEvidence rest t e) = t0 :: keys (addEvidence rest t e) := rfl
      have hk2 : keys ((t0, es) :: rest) = t0 :: keys rest := rfl
      rw [hk, hk2, ih]
      by_cases hm : t ∈ keys rest
      · rw [if_pos hm, if_pos (List.mem_cons_of_mem _ hm)]
      · have hnot : t ∉ t0 :: keys rest := by
          intro hc
          rcases List.mem_cons.mp hc with hc | hc
          · exact h0 hc.symm
          · exact hm hc
        rw [if_neg hm, if_neg hnot]
        rfl

theorem keys_extendEvidence (m : EvidenceMap) (t : Str) (es : List Evidence) :
    keys (extendEvidence m t es) = if t ∈ keys m then keys m else keys m ++ [t] := by
  induction m with
  | nil => simp [extendEvidence, keys]
  | cons te rest ih =>
    obtain ⟨t0, es0⟩ := te
    simp only [extendEvidence]
    by_cases h0 : t0 = t
    · subst h0; simp [keys]
    · rw [if_neg h0]
      have hk : keys ((t0, es0) :: extendEvidence rest t es) = t0 :: keys (extendEvidence rest t es) := rfl
      have hk2 : keys ((t0, es0) :: rest) = t0 :: keys rest := rfl
      rw [hk, hk2, ih]
      by_cases hm : t ∈ keys rest
      · rw [if_pos hm, if_pos (List.mem_cons_of_mem _ hm)]
      · have hnot : t ∉ t0 :: keys rest := by
          intro hc
          rcases List.mem_cons.mp hc with hc | hc
          · exact h0 hc.symm
          · exact hm hc
        rw [if_neg hm, if_neg hnot]
        rfl

theorem keys_nodup_addEvidence (m : EvidenceMap) (t : Str) (e : Evidence)
    (h : (keys m).Nodup) : (keys (addEvidence m t e)).Nodup := by
  rw [keys_addEvidence]
  split
  · exact h
  · rename_i hm
    simpa [List.nodup_append] using ⟨h, hm⟩

theorem keys_nodup_extendEvidence (m : EvidenceMap) (t : Str) (es : List Evidence)
    (h : (keys m).Nodup) : (keys (extendEvidence m t es)).Nodup := by
  rw [keys_extendEvidence]
  split
  · exact h
  · rename_i hm
    simpa [List.nodup_append] using ⟨h, hm⟩

/-- Generic preservation of a predicate by a left fold. -/
theorem foldl_preserve {α β : Type} (P : β → Prop) (f : β → α → β)
    (hf : ∀ b a, P b → P (f b a)) :
    ∀ (l : List α) (b : β), P b → P (l.foldl f b) := by
  intro l
  induction l with
  | nil => intro b hb; exact hb
  | cons a l ih => intro b hb; exact ih (f b a) (hf b a hb)

theorem keys_nodup_scanStep (text loc : Str) (meta : SourceMeta) (tool : Str)
    (m : EvidenceMap) (p : Str) (h : (keys m).Nodup) :
    (keys (scanStep text loc meta tool m p)).Nodup := by
  unfold scanStep
  split
  · exact keys_nodup_addEvidence _ _ _ h
  · exact h

theorem keys_nodup_scanCatalog (cat : List (Str × List Str)) (text loc : Str)
    (meta : SourceMeta) (m : EvidenceMap) (h : (keys m).Nodup) :
    (keys (scanCatalog cat text loc meta m)).Nodup := by
  refine foldl_preserve (fun mm => (keys mm).Nodup) _ ?_ cat m h
  intro b tp hb
  exact foldl_preserve (fun mm => (keys mm).Nodup) _
    (fun b' p hb' => keys_nodup_scanStep text loc meta tp.1 b' p hb') tp.2 b hb

theorem keys_nodup_scanBlob (text loc : Str) (meta : SourceMeta) (m : EvidenceMap)
    (h : (keys m).Nodup) : (keys (scanBlob text loc meta m)).Nodup :=
  keys_nodup_scanCatalog _ _ _ _ _ h

theorem keys_nodup_scanCommentsList (cs : List Comment) :
    ∀ (m : EvidenceMap), (keys m).Nodup → (keys (scanCommentsList cs m)).Nodup := by
  induction cs with
  | nil => intro m h; exact h
  | cons c rest ih =>
    intro m h
    simp only [scanCommentsList]
    cases c.body with
    | none => exact h
    | some b => exact ih _ (keys_nodup_scanBlob _ _ _ _ h)

theorem keys_nodup_scanPrComments (cs : Except Unit (List Comment)) :
    (keys (scanPrComments cs)).Nodup := by
  unfold scanPrComments
  cases cs with
  | error e => exact List.nodup_nil
  | ok l => exact keys_nodup_scanCommentsList l [] List.nodup_nil

theorem keys_nodup_scanReviewList (cs : List ReviewComment) :
    ∀ (m : EvidenceMap), (keys m).Nodup → (keys (scanReviewList cs m)).Nodup := by
  induction cs with
  | nil => intro m h; exact h
  | cons c rest ih =>
    intro m h
    simp only [scanReviewList]
    cases c.body with
    | none => exact h
    | some b => exact ih _ (keys_nodup_scanBlob _ _ _ _ h)

theorem keys_nodup_scanReviewComments (cs : Except Unit (List ReviewComment)) :
    (keys (scanReviewComments cs)).Nodup := by
  unfold scanReviewComments
  cases cs with
  | error e => exact List.nodup_nil
  | ok l => exact keys_nodup_scanReviewList l [] List.nodup_nil

theorem keys_nodup_scanCommitsList (cs : List CommitData) :
    ∀ (m : EvidenceMap), (keys m).Nodup → (keys (scanCommitsList cs m)).Nodup := by
  induction cs with
  | nil => intro m h; exact h
  | cons c rest ih =>
    intro m h
    simp only [scanCommitsList]
    exact ih _ (keys_nodup_scanBlob _ _ _ _ h)

theorem keys_nodup_scanCommitMessages (cs : Except Unit (List CommitData)) :
    (keys (scanCommitMessages cs)).Nodup := by
  unfold scanCommitMessages
  cases cs with
  | error e => exact List.nodup_nil
  | ok l => exact keys_nodup_scanCommitsList l [] List.nodup_nil

/-- Looking a tool up in a merged map splits into the two maps' lookups,
provided the merged-in source map binds each tool only once (which holds
for every map the scanners build). -/
theorem lookupD_mergeSource (src : EvidenceMap) :
    ∀ (m : EvidenceMap) (u : Str), (keys src).Nodup →
      lookupD (mergeSource m src) u = lookupD m u ++ lookupD src u := by
  induction src with
  | nil => intro m u _; simp [mergeSource, lookupD]
  | cons te rest ih =>
    intro m u hnd
    obtain ⟨t, es⟩ := te
    simp only [keys, List.map_cons, List.nodup_cons] at hnd
    have hrest : (keys rest).Nodup := hnd.2
    have hnotin : t ∉ keys rest := by simpa [keys] using hnd.1
    have hstep : mergeSource m ((t, es) :: rest) = mergeSource (extendEvidence m t es) rest := rfl
    rw [hstep, ih _ u hrest, lookupD_extendEvidence]
    by_cases hu : t = u
    · subst hu
      rw [if_pos rfl]
      have : lookupD rest t = [] := lookupD_eq_nil_of_not_mem_keys rest t hnotin
      simp [lookupD, this]
    · rw [if_neg hu]
      have hcons : lookupD ((t, es) :: rest) u = lookupD rest u := by
        simp only [lookupD]
        rw [if_neg hu]
      rw [hcons]

/-! ### The nonempty-values invariant -/

/-- Invariant of §3 of the spec: no tool key is bound to an empty evidence
sequence. -/
def allValuesNonempty (m : EvidenceMap) : Prop := ∀ te ∈ m, te.2 ≠ []

theorem allValuesNonempty_addEvidence (m : EvidenceMap) (t : Str) (e : Evidence)
    (h : allValuesNonempty m) : allValuesNonempty (addEvidence m t e) := by
  induction m with
  | nil =>
    intro te hte
    simp only [addEvidence, List.mem_singleton] at hte
    subst hte
    simp
  | cons te0 rest ih =>
    obtain ⟨t0, es⟩ := te0
    simp only [addEvidence]
    split
    · intro te hte
      rcases List.mem_cons.mp hte with rfl | hte'
      · simp
      · exact h te (List.mem_cons_of_mem _ hte')
    · intro te hte
      rcases List.mem_cons.mp hte with rfl | hte'
      · exact h _ (List.mem_cons_self _ _)
      · exact ih (fun te' hte' => h te' (List.mem_cons_of_mem _ hte')) te hte'

theorem allValuesNonempty_extendEvidence (m : EvidenceMap) (t : Str)
    (es : List Evidence) (hes : es ≠ []) (h : allValuesNonempty m) :
    allValuesNonempty (extendEvidence m t es) := by
  induction m with
  | nil =>
    intro te hte
    simp only [extendEvidence, List.mem_singleton] at hte
    subst hte
    exact hes
  | cons te0 rest ih =>
    obtain ⟨t0, es0⟩ := te0
    simp only [extendEvidence]
    split
    · intro te hte
      rcases List.mem_cons.mp hte with rfl | hte'
      · simp only [ne_eq, List.append_eq_nil, not_and]
        intro _
        exact hes
      · exact h te (List.mem_cons_of_mem _ hte')
    · intro te hte
      rcases List.mem_cons.mp hte with rfl | hte'
      · exact h _ (List.mem_cons_self _ _)
      · exact ih (fun te' hte' => h te' (List.mem_cons_of_mem _ hte')) te hte'

theorem allValuesNonempty_scanStep (text loc : Str) (meta : SourceMeta)
    (tool : Str) (m : EvidenceMap) (p : Str) (h : allValuesNonempty m) :
    allValuesNonempty (scanStep text loc meta tool m p) := by
  unfold scanStep
  split
  · exact allValuesNonempty_addEvidence _ _ _ h
  · exact h

theorem allValuesNonempty_scanCatalog (cat : List (Str × List Str))
    (text loc : Str) (meta : SourceMeta) (m : EvidenceMap)
    (h : allValuesNonempty m) :
    allValuesNonempty (scanCatalog cat text loc meta m) := by
  refine foldl_preserve allValuesNonempty _ ?_ cat m h
  intro b tp hb
  exact foldl_preserve allValuesNonempty _
    (fun b' p hb' => allValuesNonempty_scanStep text loc meta tp.1 b' p hb') tp.2 b hb

theorem allValuesNonempty_scanBlob (text loc : Str) (meta : SourceMeta)
    (m : EvidenceMap) (h : allValuesNonempty m) :
    allValuesNonempty (scanBlob text loc meta m) :=
  allValuesNonempty_scanCatalog _ _ _ _ _ h

theorem allValuesNonempty_scanCommentsList (cs : List Comment) :
    ∀ (m : EvidenceMap), allValuesNonempty m →
      allValuesNonempty (scanCommentsList cs m) := by
  induction cs with
  | nil => intro m h; exact h
  | cons c rest ih =>
    intro m h
    simp only [scanCommentsList]
    cases c.body with
    | none => exact h
    | some b => exact ih _ (allValuesNonempty_scanBlob _ _ _ _ h)

theorem allValuesNonempty_scanPrComments (cs : Except Unit (List Comment)) :
    allValuesNonempty (scanPrComments cs) := by
  unfold scanPrComments
  cases cs with
  | error e => intro te hte; cases hte
  | ok l => exact allValuesNonempty_scanCommentsList l [] (fun te hte => by cases hte)

theorem allValuesNonempty_scanReviewList (cs : List ReviewComment) :
    ∀ (m : EvidenceMap), allValuesNonempty m →
      allValuesNonempty (scanReviewList cs m) := by
  induction cs with
  | nil => intro m h; exact h
  | cons c rest ih =>
    intro m h
    simp only [scanReviewList]
    cases c.body with
    | none => exact h
    | some b => exact ih _ (allValuesNonempty_scanBlob _ _ _ _ h)

theorem allValuesNonempty_scanReviewComments (cs : Except Unit (List ReviewComment)) :
    allValuesNonempty (scanReviewComments cs) := by
  unfold scanReviewComments
  cases cs with
  | error e => intro te hte; cases hte
  | ok l => exact allValuesNonempty_scanReviewList l [] (fun te hte => by cases hte)

theorem allValuesNonempty_scanCommitsList (cs : List CommitData) :
    ∀ (m : EvidenceMap), allValuesNonempty m →
      allValuesNonempty (scanCommitsList cs m) := by
  induction cs with
  | nil => intro m h; exact h
  | cons c rest ih =>
    intro m h
    simp only [scanCommitsList]
    exact ih _ (allValuesNonempty_scanBlob _ _ _ _ h)

theorem allValuesNonempty_scanCommitMessages (cs : Except Unit (List CommitData)) :
    allValuesNonempty (scanCommitMessages cs) := by
  unfold scanCommitMessages
  cases cs with
  | error e => intro te hte; cases hte
  | ok l => exact allValuesNonempty_scanCommitsList l [] (fun te hte => by cases hte)

theorem allValuesNonempty_mergeSource (src : EvidenceMap) :
    ∀ (m : EvidenceMap), allValuesNonempty m → allValuesNonempty src →
      allValuesNonempty (mergeSource m src) := by
  induction src with
  | nil => intro m hm _; exact hm
  | cons te rest ih =>
    intro m hm hsrc
    obtain ⟨t, es⟩ := te
    have hes : es ≠ [] := hsrc (t, es) (List.mem_cons_self _ _)
    have hstep : mergeSource m ((t, es) :: rest) = mergeSource (extendEvidence m t es) rest := rfl
    rw [hstep]
    exact ih _ (allValuesNonempty_extendEvidence m t es hes hm)
      (fun te' hte' => hsrc te' (List.mem_cons_of_mem _ hte'))

/-! ### Membership lemmas for the scanner -/

theorem mem_lookupD_addEvidence_mono (m : EvidenceMap) (t : Str) (e' : Evidence)
    (u : Str) (e : Evidence) (h : e ∈ lookupD m u) :
    e ∈ lookupD (addEvidence m t e') u := by
  rw [lookupD_addEvidence]
  split
  · exact List.mem_append_left _ h
  · exact h

theorem mem_lookupD_addEvidence_self (m : EvidenceMap) (t : Str) (e : Evidence) :
    e ∈ lookupD (addEvidence m t e) t := by
  rw [lookupD_addEvidence, if_pos rfl]
  exact List.mem_append_right _ (List.mem_singleton_self e)

theorem mem_lookupD_scanStep_mono (text loc : Str) (meta : SourceMeta)
    (tool : Str) (m : EvidenceMap) (p u : Str) (e : Evidence)
    (h : e ∈ lookupD m u) : e ∈ lookupD (scanStep text loc meta tool m p) u := by
  unfold scanStep
  split
  · exact mem_lookupD_addEvidence_mono _ _ _ _ _ h
  · exact h

theorem mem_lookupD_scanTool_mono (text loc : Str) (meta : SourceMeta)
    (tp : Str × List Str) (m : EvidenceMap) (u : Str) (e : Evidence)
    (h : e ∈ lookupD m u) : e ∈ lookupD (scanTool text loc meta m tp) u :=
  foldl_preserve (fun mm => e ∈ lookupD mm u) _
    (fun b p hb => mem_lookupD_scanStep_mono text loc meta tp.1 b p u e hb) tp.2 m h

theorem scanPats_hits (text loc : Str) (meta : SourceMeta) (tool : Str)
    (pats : List Str) (p : Str) :
    ∀ m, p ∈ pats → pyContains text p = true →
      Evidence.mk loc p (extractContext text p 80) meta ∈
        lookupD (pats.foldl (scanStep text loc meta tool) m) tool := by
  induction pats with
  | nil => intro m hp _; cases hp
  | cons q rest ih =>
    intro m hp hc
    have hfold : (q :: rest).foldl (scanStep text loc meta tool) m
        = rest.foldl (scanStep text loc meta tool) (scanStep text loc meta tool m q) := rfl
    rw [hfold]
    rcases List.mem_cons.mp hp with rfl | hp'
    · refine foldl_preserve (fun mm => _ ∈ lookupD mm tool) _
        (fun b p' hb => mem_lookupD_scanStep_mono text loc meta tool b p' tool _ hb)
        rest _ ?_
      unfold scanStep
      rw [if_pos hc]
      exact mem_lookupD_addEvidence_self m tool _
    · exact ih _ hp' hc

theorem scanCatalog_hits (cat : List (Str × List Str)) (text loc : Str)
    (meta : SourceMeta) (tool : Str) (pats : List Str) (p : Str) :
    ∀ m, (tool, pats) ∈ cat → p ∈ pats → pyContains text p = true →
      Evidence.mk loc p (extractContext text p 80) meta ∈
        lookupD (scanCatalog cat text loc meta m) tool := by
  induction cat with
  | nil => intro m h; cases h
  | cons tp rest ih =>
    intro m hmem hp hc
    have hfold : scanCatalog (tp :: rest) text loc meta m
        = scanCatalog rest text loc meta (scanTool text loc meta m tp) := rfl
    rw [hfold]
    rcases List.mem_cons.mp hmem with heq | hmem'
    · refine foldl_preserve (fun mm => _ ∈ lookupD mm tool) _
        (fun b tp' hb => mem_lookupD_scanTool_mono text loc meta tp' b tool _ hb)
        rest _ ?_
      rw [← heq]
      exact scanPats_hits text loc meta tool pats p m hp hc
    · exact ih _ hmem' hp hc

theorem toLowerL_append (a b : Str) : toLowerL (a ++ b) = toLowerL a ++ toLowerL b :=
  List.map_append lowerChar a b

theorem pyContains_append_of_left (a b p : Str) (h : pyContains a p = true) :
    pyContains (a ++ b) p = true := by
  rw [pyContains_iff] at h ⊢
  exact h.trans (List.prefix_append a b).isInfix

/-! ### Counting evidence per (tool, phrase) pair -/

/-- Number of evidence entries recorded for `tool` whose matched phrase is
`p`. -/
def countP (m : EvidenceMap) (tool p : Str) : Nat :=
  ((lookupD m tool).filter (fun e => decide (e.pattern = p))).length

theorem countP_addEvidence (m : EvidenceMap) (t : Str) (e : Evidence)
    (u p : Str) :
    countP (addEvidence m t e) u p =
      countP m u p + (if t = u ∧ e.pattern = p then 1 else 0) := by
  unfold countP
  rw [lookupD_addEvidence]
  by_cases ht : t = u
  · rw [if_pos ht, List.filter_append, List.length_append]
    by_cases hp : e.pattern = p
    · simp [ht, hp]
    · simp [ht, hp]
  · simp [ht]

theorem countP_scanPats_le (text loc : Str) (meta : SourceMeta) (tool : Str)
    (pats : List Str) :
    ∀ (m : EvidenceMap) (u p : Str),
      countP (pats.foldl (scanStep text loc meta tool) m) u p ≤
        countP m u p + (if tool = u then pats.count p else 0) := by
  induction pats with
  | nil => intro m u p; simp
  | cons q rest ih =>
    intro m u p
    have hfold : (q :: rest).foldl (scanStep text loc meta tool) m
        = rest.foldl (scanStep text loc meta tool) (scanStep text loc meta tool m q) := rfl
    rw [hfold]
    refine le_trans (ih _ u p) ?_
    have hstep : countP (scanStep text loc meta tool m q) u p ≤
        countP m u p + (if tool = u ∧ q = p then 1 else 0) := by
      unfold scanStep
      split
      · rw [countP_addEvidence]
      · exact Nat.le_add_right _ _
    rw [List.count_cons]
    by_cases h1 : tool = u <;> by_cases h2 : q = p <;>
      simp only [h1, h2, beq_iff_eq, if_true, if_false, and_true, and_false,
        if_pos rfl, true_and] at hstep ⊢ <;>
      omega

/-- Total number of iterations of the double scanning loop hitting the
pair (`u`, `p`). -/
def catCount (cat : List (Str × List Str)) (u p : Str) : Nat :=
  cat.foldr (fun tp n => (if tp.1 = u then tp.2.count p else 0) + n) 0

theorem countP_scanCatalog_le (cat : List (Str × List Str)) (text loc : Str)
    (meta : SourceMeta) :
    ∀ (m : EvidenceMap) (u p : Str),
      countP (scanCatalog cat text loc meta m) u p ≤
        countP m u p + catCount cat u p := by
  induction cat with
  | nil => intro m u p; simp [scanCatalog, catCount]
  | cons tp rest ih =>
    intro m u p
    have hfold : scanCatalog (tp :: rest) text loc meta m
        = scanCatalog rest text loc meta (scanTool text loc meta m tp) := rfl
    rw [hfold]
    refine le_trans (ih _ u p) ?_
    have h := countP_scanPats_le text loc meta tp.1 tp.2 m u p
    have hcc : catCount (tp :: rest) u p
        = (if tp.1 = u then tp.2.count p else 0) + catCount rest u p := rfl
    rw [hcc]
    have hscan : scanTool text loc meta m tp = tp.2.foldl (scanStep text loc meta tp.1) m := rfl
    rw [hscan]
    omega

theorem catCount_eq_zero (cat : List (Str × List Str)) (u p : Str)
    (h : u ∉ cat.map (fun tp => tp.1)) : catCount cat u p = 0 := by
  induction cat with
  | nil => rfl
  | cons tp rest ih =>
    simp only [List.map_cons, List.mem_cons, not_or] at h
    have hcc : catCount (tp :: rest) u p
        = (if tp.1 = u then tp.2.count p else 0) + catCount rest u p := rfl
    rw [hcc, if_neg (fun he => h.1 he.symm), ih h.2]

theorem count_le_one_of_nodup {α : Type} [BEq α] [LawfulBEq α] {l : List α}
    (h : l.Nodup) (a : α) : l.count a ≤ 1 := by
  induction l with
  | nil => simp
  | cons b rest ih =>
    rw [List.count_cons]
    have hrest := (List.nodup_cons.mp h).2
    have hb := (List.nodup_cons.mp h).1
    by_cases hba : b = a
    · subst hba
      have h0 : rest.count b = 0 := List.count_eq_zero.mpr hb
      simp [h0]
    · have hf : (b == a) = false := beq_eq_false_iff_ne.mpr hba
      rw [hf]
      simpa using ih hrest

theorem catCount_le_one (cat : List (Str × List Str)) (u p : Str)
    (hkeys : (cat.map (fun tp => tp.1)).Nodup)
    (hvals : ∀ tp ∈ cat, tp.2.Nodup) : catCount cat u p ≤ 1 := by
  induction cat with
  | nil => exact Nat.zero_le 1
  | cons tp rest ih =>
    simp only [List.map_cons, List.nodup_cons] at hkeys
    have hcc : catCount (tp :: rest) u p
        = (if tp.1 = u then tp.2.count p else 0) + catCount rest u p := rfl
    rw [hcc]
    by_cases ht : tp.1 = u
    · rw [if_pos ht]
      have hz : catCount rest u p = 0 :=
        catCount_eq_zero rest u p (ht ▸ hkeys.1)
      have hcnt : tp.2.count p ≤ 1 :=
        count_le_one_of_nodup (hvals tp (List.mem_cons_self _ _)) p
      omega
    · rw [if_neg ht]
      simpa using ih hkeys.2 (fun tp' htp' => hvals tp' (List.mem_cons_of_mem _ htp'))

/-- Keys of the mention catalog are distinct and no phrase repeats inside
one tool's phrase list. -/
theorem aiToolPatterns_catCount_le_one (u p : Str) :
    catCount aiToolPatterns u p ≤ 1 :=
  catCount_le_one _ u p (by decide) (by decide)

/-! ### Context snippets always come from `extractContext` on the scanned
text (hence from the phrase's first occurrence) -/

/-- Every recorded evidence's snippet is `extractContext` of the scanned
text at its own phrase. -/
def ctxOK (text : Str) (m : EvidenceMap) : Prop :=
  ∀ tool : Str, ∀ e ∈ lookupD m tool, e.context = extractContext text e.pattern 80

theorem ctxOK_addEvidence (text : Str) (m : EvidenceMap) (t : Str) (e : Evidence)
    (he : e.context = extractContext text e.pattern 80) (h : ctxOK text m) :
    ctxOK text (addEvidence m t e) := by
  intro u e' he'
  rw [lookupD_addEvidence] at he'
  by_cases ht : t = u
  · rw [if_pos ht] at he'
    rcases List.mem_append.mp he' with h1 | h1
    · exact h u e' h1
    · rw [List.mem_singleton] at h1
      subst h1
      exact he
  · rw [if_neg ht] at he'
    exact h u e' he'

theorem ctxOK_scanStep (text loc : Str) (meta : SourceMeta) (tool : Str)
    (m : EvidenceMap) (p : Str) (h : ctxOK text m) :
    ctxOK text (scanStep text loc meta tool m p) := by
  unfold scanStep
  split
  · exact ctxOK_addEvidence text m tool _ rfl h
  · exact h

theorem ctxOK_scanCatalog (cat : List (Str × List Str)) (text loc : Str)
    (meta : SourceMeta) (m : EvidenceMap) (h : ctxOK text m) :
    ctxOK text (scanCatalog cat text loc meta m) := by
  refine foldl_preserve (ctxOK text) _ ?_ cat m h
  intro b tp hb
  exact foldl_preserve (ctxOK text) _
    (fun b' p hb' => ctxOK_scanStep text loc meta tp.1 b' p hb') tp.2 b hb

/-! ### `sortStrs` is permutation-invariant (set canonicalization) -/

theorem strLe_total : ∀ a b : Str, strLe a b = true ∨ strLe b a = true := by
  intro a
  induction a with
  | nil => intro b; left; rfl
  | cons x xs ih =>
    intro b
    cases b with
    | nil => right; rfl
    | cons y ys =>
      by_cases h : x = y
      · subst h
        simp only [strLe, if_pos rfl]
        exact ih ys
      · have hyx : ¬ y = x := fun he => h he.symm
        simp only [strLe, if_neg h, if_neg hyx]
        rcases lt_or_gt_of_ne h with h' | h'
        · left; exact decide_eq_true h'
        · right
          have h'' : y < x := h'
          exact decide_eq_true h''

theorem strLe_trans : ∀ a b c : Str, strLe a b = true → strLe b c = true →
    strLe a c = true := by
  intro a
  induction a with
  | nil => intro b c _ _; rfl
  | cons x xs ih =>
    intro b c hab hbc
    cases b with
    | nil => cases hab
    | cons y ys =>
      cases c with
      | nil => cases hbc
      | cons z zs =>
        simp only [strLe] at hab hbc ⊢
        by_cases hxy : x = y
        · subst hxy
          rw [if_pos rfl] at hab
          by_cases hyz : x = z
          · subst hyz
            rw [if_pos rfl] at hbc ⊢
            exact ih ys zs hab hbc
          · rw [if_neg hyz] at hbc ⊢
            exact hbc
        · rw [if_neg hxy] at hab
          have hlt : x < y := of_decide_eq_true hab
          by_cases hyz : y = z
          · subst hyz
            rw [if_neg hxy]
            exact decide_eq_true hlt
          · rw [if_neg hyz] at hbc
            have hlt2 : y < z := of_decide_eq_true hbc
            have hxz : x < z := lt_trans hlt hlt2
            rw [if_neg (ne_of_lt hxz)]
            exact decide_eq_true hxz

theorem strLe_antisymm : ∀ a b : Str, strLe a b = true → strLe b a = true →
    a = b := by
  intro a
  induction a with
  | nil =>
    intro b _ hba
    cases b with
    | nil => rfl
    | cons y ys => cases hba
  | cons x xs ih =>
    intro b hab hba
    cases b with
    | nil => cases hab
    | cons y ys =>
      simp only [strLe] at hab hba
      by_cases hxy : x = y
      · subst hxy
        rw [if_pos rfl] at hab hba
        rw [ih ys hab hba]
      · rw [if_neg hxy] at hab
        rw [if_neg (fun he => hxy he.symm)] at hba
        exact absurd (of_decide_eq_true hba) (not_lt_of_gt (of_decide_eq_true hab))

instance : IsTotal Str (fun a b => strLe a b = true) := ⟨strLe_total⟩

instance : IsTrans Str (fun a b => strLe a b = true) := ⟨strLe_trans⟩

instance : IsAntisymm Str (fun a b => strLe a b = true) := ⟨strLe_antisymm⟩

/-- `tuple(sorted(names))` depends only on the multiset of names: two
orderings of the same tools canonicalize to the same combination key. -/
theorem sortStrs_perm_eq {xs ys : List Str} (h : xs.Perm ys) :
    sortStrs xs = sortStrs ys :=
  List.eq_of_perm_of_sorted
    ((List.perm_insertionSort _ xs).trans (h.trans (List.perm_insertionSort _ ys).symm))
    (List.sorted_insertionSort _ xs) (List.sorted_insertionSort _ ys)

/-! ### Claim theorems -/

theorem identify_of_findBot (pr : PRData) (tool : Str)
    (hfind : findBotTool (toLowerL pr.author) creator_patterns = some tool) :
    (identify_primary_creator pr).primary_creator = tool
    ∧ (identify_primary_creator pr).confidence = str "high" := by
  unfold identify_primary_creator
  rw [hfind]
  exact ⟨rfl, rfl⟩

/-- C1: whenever the case-folded author login equals one of the registered
bot accounts of some tool in the creator rules, `identify_primary_creator`
returns that tool with confidence high, regardless of the discovery query
(the bot-account loop runs before, and short-circuits, every query-pattern
check). -/
theorem identify_bot_account_precedence (pr : PRData) (tool : Str)
    (rule : CreatorRule) (hmem : (tool, rule) ∈ creator_patterns)
    (hbot : toLowerL pr.author ∈ rule.bot_accounts.map toLowerL) :
    (identify_primary_creator pr).primary_creator = tool
    ∧ (identify_primary_creator pr).confidence = str "high" := by
  simp only [creator_patterns, List.mem_cons, List.not_mem_nil, or_false] at hmem
  rcases hmem with h | h | h | h | h <;>
    (rw [Prod.mk.injEq] at h; obtain ⟨rfl, rfl⟩ := h;
     simp only [List.map_cons, List.map_nil, List.mem_cons, List.not_mem_nil,
       or_false] at hbot)
  · rcases hbot with hb | hb
    · exact identify_of_findBot pr _ (by rw [hb]; decide)
    · exact identify_of_findBot pr _ (by rw [hb]; decide)
  · rcases hbot with hb | hb
    · exact identify_of_findBot pr _ (by rw [hb]; decide)
    · exact identify_of_findBot pr _ (by rw [hb]; decide)
  · exact identify_of_findBot pr _ (by rw [hbot]; decide)
  · exact identify_of_findBot pr _ (by rw [hbot]; decide)
  · rcases hbot with hb | hb
    · exact identify_of_findBot pr _ (by rw [hb]; decide)
    · exact identify_of_findBot pr _ (by rw [hb]; decide)

/-- Witness for C1: the author `Devin-AI[bot]` (note the case) is attributed
to devin with high confidence even though the discovery query carries the
copilot branch marker. -/
theorem identify_bot_account_precedence_witness :
    (identify_primary_creator
        ⟨str "T", some (str "B"), str "Devin-AI[bot]", str "is:pr head:copilot/"⟩).primary_creator
      = str "devin"
    ∧ (identify_primary_creator
        ⟨str "T", some (str "B"), str "Devin-AI[bot]", str "is:pr head:copilot/"⟩).confidence
      = str "high" :=
  identify_bot_account_precedence _ (str "devin")
    { bot_accounts := [str "devin-ai-integration[bot]", str "devin-ai[bot]"],
      branch_patterns := [str "devin/", str "devin-"],
      commit_patterns := [str "devin:", str "by devin"] }
    (by decide) (by decide)

/-- C2: with a processable body, the per-PR scan succeeds and binds every
tool to the concatenation of its per-source evidence in the fixed order
description, issue comments, review comments, commit messages; evidence
items are only appended, never merged or deduplicated across sources. -/
theorem scan_pr_concatenates_sources (title b author q : Str)
    (cs : Except Unit (List Comment)) (rs : Except Unit (List ReviewComment))
    (ks : Except Unit (List CommitData)) (tool : Str) :
    scan_pr_for_ai_tools ⟨title, some b, author, q⟩ cs rs ks =
      Except.ok (mergeSource (mergeSource (mergeSource (descScan title b)
        (scanPrComments cs)) (scanReviewComments rs)) (scanCommitMessages ks))
    ∧ lookupD (mergeSource (mergeSource (mergeSource (descScan title b)
        (scanPrComments cs)) (scanReviewComments rs)) (scanCommitMessages ks)) tool
      = lookupD (descScan title b) tool ++ lookupD (scanPrComments cs) tool
        ++ lookupD (scanReviewComments rs) tool
        ++ lookupD (scanCommitMessages ks) tool := by
  constructor
  · rfl
  · rw [lookupD_mergeSource _ _ _ (keys_nodup_scanCommitMessages ks),
      lookupD_mergeSource _ _ _ (keys_nodup_scanReviewComments rs),
      lookupD_mergeSource _ _ _ (keys_nodup_scanPrComments cs)]

/-- C3: a PR whose body is JSON `null` makes `scan_pr_for_ai_tools` raise
(`TypeError` from `title + ' ' + None`, line 222, outside any `try`),
aborting the per-PR analysis instead of degrading the description source to
an empty map; fetch failures of the three comment/review/commit sources do
degrade to empty maps as the claim demands. -/
theorem scan_pr_none_body_raises :
    scan_pr_for_ai_tools
        ⟨str "Fix bug", none, str "alice", str "is:pr head:copilot/"⟩
        (Except.ok []) (Except.ok []) (Except.ok []) = Except.error ()
    ∧ scanPrComments (Except.error ()) = []
    ∧ scanReviewComments (Except.error ()) = []
    ∧ scanCommitMessages (Except.error ()) = [] :=
  ⟨rfl, rfl, rfl, rfl⟩

/-- C4 counterexample: invoked with an empty analysis sequence, the
reporter raises `ZeroDivisionError` (at `multi_ai_prs/total_prs*100`)
rather than returning a zero report. -/
theorem generate_report_empty_raises :
    generate_ecosystem_report [] = Except.error () := rfl

/-- C4 amended: the reporter fails on an empty input, but returns a report
for every nonempty input, and the pipeline never reaches the empty case:
`run_ecosystem_mapping` returns early (`None`, no report) when no PRs were
collected. -/
theorem reporter_guarded_against_empty (results : List AnalysisRec) :
    (results ≠ [] → (generate_ecosystem_report results).isOk = true)
    ∧ run_ecosystem_mapping [] = Except.ok none := by
  constructor
  · intro h
    simp only [generate_ecosystem_report]
    rw [if_neg (fun h0 => h (List.length_eq_zero.mp h0))]
    rfl
  · rfl

/-- Witness for C4 amended: a single-analysis input produces a report. -/
theorem reporter_guarded_against_empty_witness :
    (generate_ecosystem_report
        [⟨⟨str "unknown", str "low", str ""⟩, [], 0, false⟩]).isOk = true
    ∧ run_ecosystem_mapping [] = Except.ok none :=
  ⟨(reporter_guarded_against_empty
      [⟨⟨str "unknown", str "low", str ""⟩, [], 0, false⟩]).1 (by decide),
   (reporter_guarded_against_empty []).2⟩

/-- The concrete PR body of the spec's §8 scenario. -/
def c5body : Str := str "Generated with ChatGPT, reviewed via copilot suggested edits"

/-- The concrete PR of the spec's §8 scenario (title not specified there,
taken empty). -/
def c5pr : PRData :=
  ⟨str "", some c5body, str "github-copilot[bot]", str "is:pr head:copilot/"⟩

set_option maxRecDepth 100000

/-- C5 counterexample: on the scenario input the description scan records
two evidence entries for chatgpt (phrases 'chatgpt' and 'generated with
chatgpt'), not exactly one as claimed. -/
theorem c5_scenario_two_evidences :
    (lookupD (descScan (str "") c5body) (str "chatgpt")).length = 2
    ∧ ¬ (lookupD (descScan (str "") c5body) (str "chatgpt")).length = 1 := by
  constructor
  · decide
  · decide

/-- C5 amended: on the scenario input the creator verdict is
{github_copilot, high, bot-account evidence} (bot-account precedence over
the query), and the description-scan evidence map contains exactly the
tools chatgpt and github_copilot — chatgpt with the two matched phrases
'chatgpt' and 'generated with chatgpt', github_copilot with the two matched
phrases 'copilot' and 'copilot suggested'. -/
theorem c5_scenario_verdict_and_evidence :
    identify_primary_creator c5pr =
      ⟨str "github_copilot", str "high", str "Bot account: github-copilot[bot]"⟩
    ∧ (descScan (str "") c5body).map (fun te => (te.1, te.2.map (fun e => e.pattern)))
      = [(str "chatgpt", [str "chatgpt", str "generated with chatgpt"]),
         (str "github_copilot", [str "copilot", str "copilot suggested"])] := by
  constructor
  · decide
  · decide

/-- The text of the C6 counterexample: a long line with the cataloged
phrase 'artificial intelligence' in the middle. -/
def c6text : Str :=
  List.replicate 50 'a' ++ str "artificial intelligence" ++ List.replicate 50 'b'

/-- C6 counterexample: for the cataloged 23-character phrase 'artificial
intelligence' matched inside a long text, the context snippet is 103
characters long — more than 80, refuting the claimed bound; the window is
phrase length plus 40 characters of pad on each side. -/
theorem c6_snippet_longer_than_80 :
    ¬ (extractContext c6text (str "artificial intelligence") 80).length ≤ 80 := by
  decide

/-- C6 amended: the snippet is at most the phrase length plus 80 characters
(40 of pad on each side, clipped to the text bounds, then trimmed), and when
the phrase is not found the snippet falls back to the first 80 characters of
the text, trimmed. -/
theorem extractContext_window (text pat : Str) :
    (extractContext text pat 80).length ≤ pat.length + 80
    ∧ (findSub text pat = none →
        extractContext text pat 80 = trim (text.take 80)) := by
  constructor
  · cases hf : findSub text pat with
    | none =>
      simp only [extractContext, hf]
      calc (trim (text.take 80)).length
          ≤ (text.take 80).length := trim_length_le _
        _ ≤ 80 := by
            rw [List.length_take]
            exact Nat.min_le_left _ _
        _ ≤ pat.length + 80 := Nat.le_add_left _ _
    | some pos =>
      simp only [extractContext, hf]
      refine le_trans (trim_length_le _) ?_
      rw [List.length_drop, List.length_take]
      omega
  · intro h
    simp only [extractContext, h]

/-- Witness for C6 amended, at a text not containing the phrase. -/
theorem extractContext_window_witness :
    (extractContext (str "hello") (str "zzz") 80).length ≤ (str "zzz").length + 80
    ∧ extractContext (str "hello") (str "zzz") 80 = trim ((str "hello").take 80) :=
  ⟨(extractContext_window (str "hello") (str "zzz")).1,
   (extractContext_window (str "hello") (str "zzz")).2 (by decide)⟩

/-- C7: the combination key of a multi-AI analysis is the sorted tool-name
list, so two multi-AI analyses whose tool names are permutations of each
other fall into one group, reported once with count 2; and (second
conjunct) a tie in counts is broken in favour of the combination inserted
first. -/
theorem top_combination_canonicalizes (v1 v2 : CreatorVerdict) (xs ys : List Str)
    (hperm : xs.Perm ys) :
    top_combination [⟨v1, xs, xs.length, true⟩, ⟨v2, ys, ys.length, true⟩]
      = some (sortStrs xs, 2)
    ∧ top_combination
        [⟨⟨str "unknown", str "low", str ""⟩, [str "b", str "a"], 2, true⟩,
         ⟨⟨str "unknown", str "low", str ""⟩, [str "d", str "c"], 2, true⟩]
      = some ([str "a", str "b"], 1) := by
  constructor
  · have h := sortStrs_perm_eq hperm
    have h2 : combinationsOf [⟨v1, xs, xs.length, true⟩, ⟨v2, ys, ys.length, true⟩]
        = bumpCount [(sortStrs xs, 1)] (sortStrs ys) := rfl
    have h3 : combinationsOf [⟨v1, xs, xs.length, true⟩, ⟨v2, ys, ys.length, true⟩]
        = [(sortStrs xs, 2)] := by
      rw [h2, ← h]
      simp [bumpCount]
    unfold top_combination
    rw [h3]
    rfl
  · decide

/-- Witness for C7: two discovery orders of the pair {chatgpt, copilot}. -/
theorem top_combination_canonicalizes_witness :
    top_combination
        [⟨⟨str "unknown", str "low", str ""⟩, [str "copilot", str "chatgpt"],
          ([str "copilot", str "chatgpt"] : List Str).length, true⟩,
         ⟨⟨str "unknown", str "low", str ""⟩, [str "chatgpt", str "copilot"],
          ([str "chatgpt", str "copilot"] : List Str).length, true⟩]
      = some (sortStrs [str "copilot", str "chatgpt"], 2)
    ∧ top_combination
        [⟨⟨str "unknown", str "low", str ""⟩, [str "b", str "a"], 2, true⟩,
         ⟨⟨str "unknown", str "low", str ""⟩, [str "d", str "c"], 2, true⟩]
      = some ([str "a", str "b"], 1) :=
  top_combination_canonicalizes _ _ _ _ (by decide)

/-- C8: every evidence map built by the four per-source scans, and the
per-PR aggregate of `scan_pr_for_ai_tools`, binds each present tool key to
a nonempty evidence sequence (a tool is a key iff at least one Evidence
exists for it). -/
theorem evidence_maps_nonempty_values (title b : Str)
    (cs : Except Unit (List Comment)) (rs : Except Unit (List ReviewComment))
    (ks : Except Unit (List CommitData)) :
    allValuesNonempty (descScan title b)
    ∧ allValuesNonempty (scanPrComments cs)
    ∧ allValuesNonempty (scanReviewComments rs)
    ∧ allValuesNonempty (scanCommitMessages ks)
    ∧ allValuesNonempty (mergeSource (mergeSource (mergeSource (descScan title b)
        (scanPrComments cs)) (scanReviewComments rs)) (scanCommitMessages ks)) := by
  have h1 : allValuesNonempty (descScan title b) :=
    allValuesNonempty_scanBlob _ _ _ _ (fun te hte => absurd hte (List.not_mem_nil te))
  have h2 := allValuesNonempty_scanPrComments cs
  have h3 := allValuesNonempty_scanReviewComments rs
  have h4 := allValuesNonempty_scanCommitMessages ks
  exact ⟨h1, h2, h3, h4,
    allValuesNonempty_mergeSource _ _
      (allValuesNonempty_mergeSource _ _
        (allValuesNonempty_mergeSource _ _ h1 h2) h3) h4⟩

/-- Witness for C8, at the description map of a PR titled 'chatgpt'. -/
theorem evidence_maps_nonempty_values_witness :
    ((str "chatgpt",
        [Evidence.mk (str "PR description") (str "chatgpt")
          (extractContext (toLowerL (str "chatgpt" ++ str " " ++ str ""))
            (str "chatgpt") 80) SourceMeta.desc]) : Str × List Evidence).2 ≠ [] :=
  (evidence_maps_nonempty_values (str "chatgpt") (str "")
      (Except.ok []) (Except.ok []) (Except.ok [])).1 _ (by decide)

/-- C9: the description scan runs over `(title + ' ' + body).lower()`, so a
cataloged phrase contained (case-folded) in the title alone yields an
Evidence tagged 'PR description' for its tool, whatever the body. -/
theorem description_scan_covers_title (title body tool : Str) (pats : List Str)
    (p : Str) (hmem : (tool, pats) ∈ aiToolPatterns) (hp : p ∈ pats)
    (hc : pyContains (toLowerL title) p = true) :
    Evidence.mk (str "PR description") p
        (extractContext (toLowerL (title ++ str " " ++ body)) p 80) SourceMeta.desc
      ∈ lookupD (descScan title body) tool := by
  have hfull : pyContains (toLowerL (title ++ str " " ++ body)) p = true := by
    rw [toLowerL_append, toLowerL_append, List.append_assoc]
    exact pyContains_append_of_left _ _ _ hc
  exact scanCatalog_hits aiToolPatterns _ _ _ tool pats p [] hmem hp hfull

/-- Witness for C9: phrase 'codewhisperer' occurs in the title only. -/
theorem description_scan_covers_title_witness :
    Evidence.mk (str "PR description") (str "codewhisperer")
        (extractContext
          (toLowerL (str "Try CodeWhisperer now" ++ str " " ++ str "no mention"))
          (str "codewhisperer") 80) SourceMeta.desc
      ∈ lookupD (descScan (str "Try CodeWhisperer now") (str "no mention"))
          (str "codewhisperer") :=
  description_scan_covers_title (str "Try CodeWhisperer now") (str "no mention")
    (str "codewhisperer")
    [str "codewhisperer", str "code whisperer", str "amazon codewhisperer",
     str "aws codewhisperer"]
    (str "codewhisperer") (by decide) (by decide) (by decide)

/-- C10: scanning one text blob emits at most one Evidence per
(tool, phrase) pair however often the phrase occurs; every recorded snippet
is `extractContext` of the blob at the evidence's own phrase; and
`extractContext`'s position (`findSub`) is the first occurrence: the phrase
starts there and at no earlier index. -/
theorem single_blob_scan_no_repetition (text loc : Str) (meta : SourceMeta)
    (tool p : Str) :
    countP (scanBlob text loc meta []) tool p ≤ 1
    ∧ (∀ e ∈ lookupD (scanBlob text loc meta []) tool,
        e.context = extractContext text e.pattern 80)
    ∧ (∀ i, findSub text p = some i →
        p.isPrefixOf (text.drop i) = true
        ∧ ∀ j, j < i → p.isPrefixOf (text.drop j) = false) := by
  refine ⟨?_, ?_, findSub_first text p⟩
  · have h := countP_scanCatalog_le aiToolPatterns text loc meta [] tool p
    have h0 : countP [] tool p = 0 := rfl
    have h1 := aiToolPatterns_catCount_le_one tool p
    unfold scanBlob
    omega
  · intro e he
    refine ctxOK_scanCatalog aiToolPatterns text loc meta [] ?_ tool e he
    intro u e' he'
    exact absurd he' (List.not_mem_nil e')

/-- The blob of the C10 witness: the phrase 'chatgpt' occurs twice. -/
def c10text : Str := str "chatgpt and chatgpt"

/-- Witness for C10: despite two occurrences of 'chatgpt' in the blob, the
count for the pair is at most one, the recorded snippet equals
`extractContext` at the phrase, and the first occurrence is at index 0. -/
theorem single_blob_scan_no_repetition_witness :
    countP (scanBlob c10text (str "PR comment")
        (SourceMeta.comment (str "bob") (str "2024-01-01")) [])
        (str "chatgpt") (str "chatgpt") ≤ 1
    ∧ (Evidence.mk (str "PR comment") (str "chatgpt")
        (extractContext c10text (str "chatgpt") 80)
        (SourceMeta.comment (str "bob") (str "2024-01-01"))).context
      = extractContext c10text (str "chatgpt") 80
    ∧ (str "chatgpt").isPrefixOf (c10text.drop 0) = true :=
  ⟨(single_blob_scan_no_repetition c10text (str "PR comment")
      (SourceMeta.comment (str "bob") (str "2024-01-01"))
      (str "chatgpt") (str "chatgpt")).1,
   (single_blob_scan_no_repetition c10text (str "PR comment")
      (SourceMeta.comment (str "bob") (str "2024-01-01"))
      (str "chatgpt") (str "chatgpt")).2.1 _ (by decide),
   ((single_blob_scan_no_repetition c10text (str "PR comment")
      (SourceMeta.comment (str "bob") (str "2024-01-01"))
      (str "chatgpt") (str "chatgpt")).2.2 0 (by decide)).1⟩

end AIEco
